import Mathlib

/-!
Shallow embedding of the `rmdir-cli` command-line tool (the canonical,
brutal-mode variant of the CLI script).  Pure fragments of the JavaScript
source become Lean functions; effectful fragments (filesystem access,
external commands, the interactive prompt, `process.exit`) are made
explicit by passing their observable outcomes in as environment data and
by returning the messages/events the code would emit.
-/

namespace RmdirCli

/-! ### JavaScript string primitives

The string operations of the source are modelled on character lists (the
standard library's byte-position loops are avoided so that every
definition evaluates by kernel reduction on concrete inputs). -/

/-- JavaScript `s.startsWith(pre)`. -/
def jsStartsWith (s pre : String) : Bool :=
  pre.data.isPrefixOf s.data

/-- JavaScript `s.toLowerCase()` (ASCII case mapping, which is all the
tool compares). -/
def jsToLower (s : String) : String :=
  String.mk (s.data.map Char.toLower)

/-- JavaScript `s.trim()`. -/
def jsTrim (s : String) : String :=
  String.mk
    (((s.data.dropWhile Char.isWhitespace).reverse.dropWhile
      Char.isWhitespace).reverse)

/-- Splitting worker for `jsSplitOn`: scan for the next occurrence of the
(non-empty) separator, accumulating the current (reversed) field.  The
`fuel` argument (initially the scanned list's length, which every step
strictly decreases below) only makes the recursion structural, so that
the definition evaluates by kernel reduction; the zero-fuel default is
unreachable. -/
def jsSplitGo (sep : List Char) : Nat → List Char → List Char → List (List Char)
  | _, [], cur => [cur.reverse]
  | 0, cs, cur => [cur.reverse ++ cs]
  | fuel + 1, c :: rest, cur =>
    if sep.isPrefixOf (c :: rest) then
      cur.reverse :: jsSplitGo sep fuel (List.drop (sep.length - 1) rest) []
    else
      jsSplitGo sep fuel rest (c :: cur)

/-- JavaScript `s.split(sep)` for a non-empty literal separator: the
fields between occurrences of `sep` (empty fields included). -/
def jsSplitOn (s sep : String) : List String :=
  (jsSplitGo sep.data s.data.length s.data []).map String.mk

/-- Options record built by `parseArgs` (source: `parseArgs`, fields
`force`, `brutal`, `yes`, `help`, `version`, `directories`). -/
structure Options where
  force : Bool
  brutal : Bool
  yes : Bool
  help : Bool
  version : Bool
  directories : List String
deriving DecidableEq, Repr

/-- The ten recognized flag tokens of the argument parser. -/
def isFlagToken (a : String) : Bool :=
  a == "--help" || a == "-h" || a == "--version" || a == "-v" ||
  a == "--force" || a == "-f" || a == "--brutal" || a == "-b" ||
  a == "--yes" || a == "-y"

/-- A token that begins with `-` but is not a recognized flag: the parser
prints usage and exits 1 on it. -/
def isUnknownOption (a : String) : Bool :=
  jsStartsWith a "-" && !isFlagToken a

/-- Loop body of `parseArgs`: one pass over the argument list, setting
booleans and appending non-flag tokens to `directories` in order.  An
unknown `-`-prefixed token aborts the process (modelled as `.error ()`,
standing for `process.exit(1)` after printing usage). -/
def parseArgsGo : List String → Options → Except Unit Options
  | [], o => .ok o
  | a :: rest, o =>
    if a == "--help" || a == "-h" then parseArgsGo rest { o with help := true }
    else if a == "--version" || a == "-v" then parseArgsGo rest { o with version := true }
    else if a == "--force" || a == "-f" then parseArgsGo rest { o with force := true }
    else if a == "--brutal" || a == "-b" then parseArgsGo rest { o with brutal := true }
    else if a == "--yes" || a == "-y" then parseArgsGo rest { o with yes := true }
    else if jsStartsWith a "-" then .error ()
    else parseArgsGo rest { o with directories := o.directories ++ [a] }

/-- Initial options record (all flags false, no targets). -/
def initOptions : Options :=
  { force := false, brutal := false, yes := false, help := false,
    version := false, directories := [] }

/-- `parseArgs` of the source, applied to `process.argv.slice(2)`. -/
def parseArgs (args : List String) : Except Unit Options :=
  parseArgsGo args initOptions

/-- Filesystem node as the tool observes it.  `file` is a regular file of
the given byte size; `dir readable entries` is a directory whose
`readdirSync` succeeds iff `readable` and lists `entries` (name, node);
`badStat` is an entry whose `statSync` throws (e.g. a child of a
directory readable but not searchable, or an entry racing with deletion). -/
inductive FsNode where
  | file (size : Nat)
  | dir (readable : Bool) (entries : List (String × FsNode))
  | badStat
deriving Repr

/-- Error code classification used by `checkDirectory`'s catch. -/
inductive ErrCode where
  | enoent
  | eacces
  | other (msg : String)
deriving DecidableEq, Repr

/-- Outcome of `fs.statSync` at a target path. -/
inductive StatResult where
  | statErr (c : ErrCode)
  | node (n : FsNode)
deriving Repr

/-- `checkDirectory`: stats the path; any stat error is caught and
classified (advisory message only) and `false` is returned; a non-directory
also yields `false`.  A `badStat` node at the target path is a stat throw
as well. -/
def checkDirectory : StatResult → Bool
  | .statErr _ => false
  | .node (.file _) => false
  | .node .badStat => false
  | .node (.dir _ _) => true

/-- `isDirectoryEmpty`: `readdirSync` then `files.length === 0`; any
readdir error is caught and `false` is returned. -/
def isDirectoryEmpty : StatResult → Bool
  | .node (.dir true es) => es.length == 0
  | _ => false

mutual

/-- `walkDir` of `getDirectorySize`: readdir the current node (errors
caught, contributing nothing) and fold over its entries. -/
def walkDir : FsNode → Nat × Nat
  | .file _ => (0, 0)
  | .badStat => (0, 0)
  | .dir false _ => (0, 0)
  | .dir true es => walkEntries es

/-- The `forEach` body of `walkDir`, with the source's mutable
`totalSize`/`totalFiles` accumulation made explicit.  A `badStat` entry
makes `statSync` throw inside the `forEach`; the surrounding `try` catches
it, so the rest of this directory's listing is abandoned (entries already
visited keep their contribution). -/
def walkEntries : List (String × FsNode) → Nat × Nat
  | [] => (0, 0)
  | (_, .badStat) :: _ => (0, 0)
  | (_, .file sz) :: rest =>
    let r := walkEntries rest
    (sz + r.1, 1 + r.2)
  | (_, .dir rd es) :: rest =>
    let c := walkDir (.dir rd es)
    let r := walkEntries rest
    (c.1 + r.1, c.2 + r.2)

end

/-- `getDirectorySize`: total byte size and file count, as the pair
`(size, files)`. -/
def getDirectorySize (n : FsNode) : Nat × Nat := walkDir n

mutual

/-- Modelled from the spec wording of `computeSize` ("read errors at any
level are swallowed and that subtree's contribution is simply omitted"):
a size computation in which each erroring entry or unreadable directory is
omitted by itself, while all of its siblings still contribute.  Compared
against `walkDir`, which the source actually implements. -/
def claimSize : FsNode → Nat × Nat
  | .file _ => (0, 0)
  | .badStat => (0, 0)
  | .dir false _ => (0, 0)
  | .dir true es => claimSizeEntries es

/-- Entry fold of `claimSize`: every sibling contributes, erroring or not. -/
def claimSizeEntries : List (String × FsNode) → Nat × Nat
  | [] => (0, 0)
  | (_, .badStat) :: rest => claimSizeEntries rest
  | (_, .file sz) :: rest =>
    let r := claimSizeEntries rest
    (sz + r.1, 1 + r.2)
  | (_, .dir rd es) :: rest =>
    let c := claimSize (.dir rd es)
    let r := claimSizeEntries rest
    (c.1 + r.1, c.2 + r.2)

end

mutual

/-- Specification-side view of the walk: the byte sizes of the regular
files the walk can see (descendant files reachable through readable
directories and statable entries), in traversal order. -/
def visFiles : FsNode → List Nat
  | .file _ => []
  | .badStat => []
  | .dir false _ => []
  | .dir true es => visFilesEntries es

/-- Entry fold of `visFiles`. -/
def visFilesEntries : List (String × FsNode) → List Nat
  | [] => []
  | (_, .badStat) :: rest => visFilesEntries rest
  | (_, .file sz) :: rest => sz :: visFilesEntries rest
  | (_, .dir rd es) :: rest => visFiles (.dir rd es) ++ visFilesEntries rest

end

mutual

/-- No entry of the tree has a throwing `statSync`. -/
def noBadStat : FsNode → Bool
  | .file _ => true
  | .badStat => false
  | .dir _ es => noBadStatEntries es

/-- List form of `noBadStat`. -/
def noBadStatEntries : List (String × FsNode) → Bool
  | [] => true
  | (_, c) :: rest => noBadStat c && noBadStatEntries rest

end

/-! ### JavaScript string primitives used by the scanner -/

/-- Numeric value of a leading run of decimal digits; `none` when the
first character is not a digit (JavaScript `parseInt` returning `NaN`). -/
def digitsVal (cs : List Char) : Option Nat :=
  let ds := cs.takeWhile (·.isDigit)
  if ds.isEmpty then none
  else some (ds.foldl (fun a c => a * 10 + (c.toNat - 48)) 0)

/-- JavaScript `parseInt(s)` in base 10: skip leading whitespace, optional
sign, then the longest digit run; `none` models `NaN`.  (The `0x` hex
form of `parseInt` is not modelled; no reasoning here depends on it.) -/
def jsParseInt (s : String) : Option Int :=
  match s.toList.dropWhile (·.isWhitespace) with
  | '-' :: rest => (digitsVal rest).map (fun n => -(n : Int))
  | '+' :: rest => (digitsVal rest).map (fun n => (n : Int))
  | cs => (digitsVal cs).map (fun n => (n : Int))

mutual

/-- JavaScript `s.split(/\s+/)`, in-token state: building the current
(reversed) token `cur`. -/
def jsSplitWsGo : List Char → List Char → List String
  | [], cur => [String.mk cur.reverse]
  | c :: rest, cur =>
    if c.isWhitespace then String.mk cur.reverse :: jsSplitWsSkip rest
    else jsSplitWsGo rest (c :: cur)

/-- JavaScript `s.split(/\s+/)`, in-separator state: skipping a maximal
whitespace run. -/
def jsSplitWsSkip : List Char → List String
  | [] => [""]
  | c :: rest =>
    if c.isWhitespace then jsSplitWsSkip rest else jsSplitWsGo rest [c]

end

/-- JavaScript `s.split(/\s+/)`: fields between maximal whitespace runs,
with an empty field at an end whose side starts/ends with whitespace. -/
def jsSplitWs (s : String) : List String :=
  jsSplitWsGo s.toList []

/-- JavaScript `s.includes(sub)` for a non-empty literal `sub`. -/
def strContains (s sub : String) : Bool :=
  (jsSplitOn s sub).length > 1

/-- JavaScript `s.replace(/"/g, "")`. -/
def removeQuotes (s : String) : String :=
  String.mk (s.toList.filter (fun c => c ≠ '"'))

/-- Search for the regex `/pid:\s*(\d+)/` over the characters of a line:
at each position try to match the literal `pid:`, then skip whitespace,
then require at least one digit; on a failed attempt resume the scan one
character further (leftmost-match semantics).  The `fuel` argument
(initially the list's length) only makes the recursion structural. -/
def pidSearchGo : Nat → List Char → Option Nat
  | _, [] => none
  | 0, _ => none
  | fuel + 1, 'p' :: 'i' :: 'd' :: ':' :: rest =>
    match digitsVal (rest.dropWhile (·.isWhitespace)) with
    | some n => some n
    | none => pidSearchGo fuel ('i' :: 'd' :: ':' :: rest)
  | fuel + 1, _ :: rest => pidSearchGo fuel rest

/-- Leftmost match of `/pid:\s*(\d+)/` in a line. -/
def pidSearch (cs : List Char) : Option Nat :=
  pidSearchGo cs.length cs

/-! ### Process scanner (`getProcessesUsingDirectory`) -/

/-- A process holding open handles, as collected by the scanner.  The
`pid` is `none` when the JavaScript value is `NaN` (a `parseInt` that
failed); note that the tasklist fallback of the source does push such
entries. -/
structure ProcessHandle where
  pid : Option Int
  name : String
deriving DecidableEq, Repr

/-- One line of the `handle.exe` branch: gated by
`line.includes("pid:")`, then matched against `/pid:\s*(\d+)/`; name is
the literal `"Unknown"`. -/
def parseHandleLine (line : String) : Option ProcessHandle :=
  if strContains line "pid:" then
    match pidSearch line.toList with
    | some n => some ⟨some (n : Int), "Unknown"⟩
    | none => none
  else none

/-- One line of the `tasklist` fallback: `split(",")`, and whenever at
least two fields exist an entry is pushed — with `pid` possibly `NaN`
(`none`), since the source performs no `isNaN` check here. -/
def parseTasklistLine (line : String) : Option ProcessHandle :=
  let parts := jsSplitOn line ","
  if 2 ≤ parts.length then
    some ⟨jsParseInt (removeQuotes (parts.getD 1 "")),
          removeQuotes (parts.getD 0 "")⟩
  else none

/-- One line of the `lsof` branch: `split(/\s+/)`, requiring at least two
fields and a non-`NaN` `parseInt` of the second; name is the first. -/
def parseLsofLine (line : String) : Option ProcessHandle :=
  let parts := jsSplitWs line
  if 2 ≤ parts.length then
    match jsParseInt (parts.getD 1 "") with
    | some n => some ⟨some n, parts.getD 0 ""⟩
    | none => none
  else none

/-- The source's `forEach`-with-`push` accumulation over the lines of a
command output. -/
def pushLines (parse : String → Option ProcessHandle) (lines : List String) :
    List ProcessHandle :=
  lines.foldl (fun acc line =>
    match parse line with
    | some p => acc ++ [p]
    | none => acc) []

/-- `handle.exe` output parse (no emptiness guard in the source). -/
def parseHandleOutput (out : String) : List ProcessHandle :=
  pushLines parseHandleLine (jsSplitOn out "\n")

/-- `tasklist` output parse, guarded by `if (tasklistResult.trim())`. -/
def parseTasklistOutput (out : String) : List ProcessHandle :=
  if jsTrim out == "" then []
  else pushLines parseTasklistLine (jsSplitOn out "\n")

/-- `lsof` output parse, guarded by `if (lsofResult.trim())`. -/
def parseLsofOutput (out : String) : List ProcessHandle :=
  if jsTrim out == "" then []
  else pushLines parseLsofLine (jsSplitOn out "\n")

/-- Observable outcomes of the external commands the scanner may run.
`none` means the `execSync` call threw (tool missing in a way the shell
fallback did not mask, non-zero exit, or timeout); `some out` is the
captured standard output. -/
structure ScanEnv where
  isWin : Bool
  handleOut : Option String
  tasklistOut : Option String
  lsofOut : Option String
deriving Repr

/-- One step of the duplicate-removal pass: skip a pid already in the
`seenPids` set (JavaScript `Set`, in which `NaN` equals `NaN`), otherwise
record it and push the handle. -/
def dedupStep (acc : List ProcessHandle × List (Option Int))
    (p : ProcessHandle) : List ProcessHandle × List (Option Int) :=
  if acc.2.contains p.pid then acc
  else (acc.1 ++ [p], p.pid :: acc.2)

/-- The duplicate-removal pass at the end of the scanner, keeping
first-occurrence order. -/
def dedupByPid (ps : List ProcessHandle) : List ProcessHandle :=
  (ps.foldl dedupStep ([], [])).1

/-- `getProcessesUsingDirectory`: platform-dispatched best-effort scan.
On Windows, a successful `handle.exe` run is parsed unless its output
contains the shell fallback marker; a throwing `handle.exe` run falls
back to `tasklist`; a throwing `tasklist` yields nothing.  On POSIX a
throwing `lsof` yields nothing.  The promise always resolves, with
duplicates removed by pid. -/
def getProcessesUsingDirectory (env : ScanEnv) : List ProcessHandle :=
  let processes :=
    if env.isWin then
      match env.handleOut with
      | some res =>
        if strContains res "handle.exe not found" then []
        else parseHandleOutput res
      | none =>
        match env.tasklistOut with
        | some tres => parseTasklistOutput tres
        | none => []
    else
      match env.lsofOut with
      | some lres => parseLsofOutput lres
      | none => []
  dedupByPid processes

/-! ### Process killer (`killProcesses`) -/

/-- The value `killProcesses` rejects with when some attempt failed. -/
structure KillRejection where
  killed : List ProcessHandle
  failed : List (ProcessHandle × String)
deriving DecidableEq, Repr

/-- One `forEach` step of `killProcesses`: each termination attempt runs
in its own `try` (one failure does not abort the batch); the kill
command's outcome per pid is supplied by `killFails` (a failing pid maps
to its error message). -/
def killStep (killFails : List (Option Int × String))
    (acc : List ProcessHandle × List (ProcessHandle × String))
    (p : ProcessHandle) : List ProcessHandle × List (ProcessHandle × String) :=
  match killFails.lookup p.pid with
  | none => (acc.1 ++ [p], acc.2)
  | some msg => (acc.1, acc.2 ++ [(p, msg)])

/-- `killProcesses`: the `forEach` accumulation over all handles followed
by the resolve/reject decision.  When any attempt failed the promise
REJECTS with the `{killed, failed}` partition; otherwise it resolves with
the bare `killed` list. -/
def killProcesses (killFails : List (Option Int × String))
    (ps : List ProcessHandle) : Except KillRejection (List ProcessHandle) :=
  let step := ps.foldl (killStep killFails) ([], [])
  if step.2.isEmpty then .ok step.1
  else .error ⟨step.1, step.2⟩

/-! ### Confirmation gate (`confirmDeletion`) -/

/-- Console messages of the confirmation gate (the floating-point MB
formatting of the size line is display-only and kept as raw bytes here). -/
inductive Msg where
  | aboutToDelete (p : String)
  | containsInfo (files : Nat) (bytes : Nat)
  | brutalNote
  | question (withKill : Bool)
  | cancelled
deriving DecidableEq, Repr

/-- `confirmDeletion`: with `yes` set, resolves `true` at once — before
the readline interface, the size computation or any output.  Otherwise it
computes the size report, prints it, notes process killing when `brutal`
is set, asks the corresponding question, and accepts exactly the answers
whose `toLowerCase()` is `"y"` or `"yes"`; a decline additionally prints
`Operation cancelled.`.  Returns (confirmed, messages printed). -/
def confirmDeletion (opts : Options) (dirpath : String) (n : FsNode)
    (answer : String) : Bool × List Msg :=
  if opts.yes then (true, [])
  else
    let sizeInfo := getDirectorySize n
    let confirmed := jsToLower answer == "y" || jsToLower answer == "yes"
    let base := [Msg.aboutToDelete dirpath, Msg.containsInfo sizeInfo.2 sizeInfo.1]
    if opts.brutal then
      (confirmed, base ++ [Msg.brutalNote, Msg.question true] ++
        (if confirmed then [] else [Msg.cancelled]))
    else
      (confirmed, base ++ [Msg.question false] ++
        (if confirmed then [] else [Msg.cancelled]))

/-! ### Per-target orchestrator (`rmdirWithConfirmation`) -/

/-- Observable per-target events.  `inspectEv` is the
`checkDirectory`/`isDirectoryEmpty` inspection, `promptEv` the display of
the interactive question, `scanEv` the process scan, `killEv` a
`killProcesses` batch, `deleteEv` an invocation of the recursive deleter
`rmdir(dirpath)`. -/
inductive Ev where
  | inspectEv (t : String)
  | promptEv (t : String)
  | scanEv (t : String)
  | killEv (t : String)
  | deleteEv (t : String)
deriving DecidableEq, Repr

/-- The target path an event is about. -/
def evTag : Ev → String
  | .inspectEv t => t
  | .promptEv t => t
  | .scanEv t => t
  | .killEv t => t
  | .deleteEv t => t

/-- Everything the processing of one target observes from the outside
world.  `answer` is the line the prompt would read; `removeErr` is the
outcome of the recursive deleter at this path.

Modelled from the spec: the recursive deleter `remove` (`rmdir` from the
repository's `index.js`, which is not among the provided sources) deletes
the directory tree unconditionally once invoked, and a failure surfaces
as a thrown error carrying a message — here `removeErr = some msg`. -/
structure TargetEnv where
  stat : StatResult
  answer : String
  scan : ScanEnv
  killFails : List (Option Int × String)
  removeErr : Option String
deriving Repr

/-- Projection of a passing `checkDirectory` stat to its node (defaulted
on the unreachable error case). -/
def statNode : StatResult → FsNode
  | .node n => n
  | .statErr _ => .badStat

/-- `rmdirWithConfirmation`, split into its settled outcome (`.ok b` for
`resolve(b)`, `.error m` for a rejection with message `m`), the events its
executor emits synchronously at promise-creation time, and the events its
`.then`-continuations emit on later microtasks.

Faithful control-flow notes mirrored from the source: the confirmation
`.then` chain's second stage runs unconditionally, so after the gate is
reached the deleter is invoked even on a declined confirmation (the outer
promise was already resolved `false`, so the outcome stays `ok false`);
the brutal kill stage is reached only when confirmed, emits `killEv` only
when the scan found processes, and its result never blocks deletion. -/
def rmdirWithConfirmation (opts : Options) (dirpath : String)
    (env : TargetEnv) : Except String Bool × List Ev × List Ev :=
  if !checkDirectory env.stat then
    (.error "Directory check failed", [.inspectEv dirpath], [])
  else
    let isEmpty := isDirectoryEmpty env.stat
    if !isEmpty && !opts.force && !opts.brutal then
      (.error "Directory not empty", [.inspectEv dirpath], [])
    else if !isEmpty then
      let c := confirmDeletion opts dirpath (statNode env.stat) env.answer
      let syncEvs := [Ev.inspectEv dirpath] ++
        (if opts.yes then [] else [Ev.promptEv dirpath])
      let killEvs : List Ev :=
        if c.1 && opts.brutal then
          [Ev.scanEv dirpath] ++
            (if (getProcessesUsingDirectory env.scan).isEmpty then []
             else [Ev.killEv dirpath])
        else []
      let outcome : Except String Bool :=
        if !c.1 then .ok false
        else
          match env.removeErr with
          | none => .ok true
          | some m => .error m
      (outcome, syncEvs, killEvs ++ [Ev.deleteEv dirpath])
    else
      match env.removeErr with
      | none => (.ok true, [.inspectEv dirpath, .deleteEv dirpath], [])
      | some m => (.error m, [.inspectEv dirpath, .deleteEv dirpath], [])

/-! ### Main execution -/

/-- `Promise.all` over already-created promises whose settlements are
known: the first rejection in list order wins (all the rejections of
interest here settle synchronously, in list order); otherwise the list of
resolved values. -/
def promiseAll : List (Except String Bool) → Except String (List Bool)
  | [] => .ok []
  | .error e :: _ => .error e
  | .ok b :: rest => (promiseAll rest).map (fun bs => b :: bs)

/-- Terminal behavior of the script: which branch printed what and the
exit code it called `process.exit` with. -/
inductive MainOutcome where
  | helpShown
  | versionShown
  | noDirError
  | unknownOption
  | allSuccess
  | countSummary (succ total : Nat)
  | operationFailed (msg : String)
deriving DecidableEq, Repr

/-- The exit code of each terminal branch. -/
def exitCode : MainOutcome → Nat
  | .helpShown => 0
  | .versionShown => 0
  | .allSuccess => 0
  | .noDirError => 1
  | .unknownOption => 1
  | .countSummary _ _ => 1
  | .operationFailed _ => 1

/-- The settled outcome of every target's promise, in target order. -/
def targetResults (opts : Options) (env : String → TargetEnv) :
    List (Except String Bool) :=
  opts.directories.map (fun t => (rmdirWithConfirmation opts t (env t)).1)

/-- The main execution: parse, short-circuit on help/version/no-target,
otherwise create all the per-target promises and `Promise.all` them; on a
rejection print `Operation failed` and exit 1, otherwise print either the
all-success line (exit 0) or the `succ out of total` summary (exit 1). -/
def mainRun (args : List String) (env : String → TargetEnv) : MainOutcome :=
  match parseArgs args with
  | .error _ => .unknownOption
  | .ok opts =>
    if opts.help then .helpShown
    else if opts.version then .versionShown
    else if opts.directories.isEmpty then .noDirError
    else
      match promiseAll (targetResults opts env) with
      | .error m => .operationFailed m
      | .ok bs =>
        let s := bs.count true
        if s = bs.length then .allSuccess else .countSummary s bs.length

/-- Events emitted during the synchronous promise-creation pass of the
main execution (`options.directories.map(...)` runs every executor to its
first suspension, in target order, before `Promise.all` is even called). -/
def mainSyncTrace (args : List String) (env : String → TargetEnv) : List Ev :=
  match parseArgs args with
  | .error _ => []
  | .ok opts =>
    if opts.help || opts.version || opts.directories.isEmpty then []
    else (opts.directories.map
      (fun t => (rmdirWithConfirmation opts t (env t)).2.1)).flatten

/-- Events emitted by the `.then`-continuations.  JavaScript semantics
guarantees every one of these runs strictly after the whole synchronous
pass; their mutual interleaving across targets is not modelled (they are
grouped per target, in target order) and no theorem below depends on it. -/
def mainAsyncTrace (args : List String) (env : String → TargetEnv) : List Ev :=
  match parseArgs args with
  | .error _ => []
  | .ok opts =>
    if opts.help || opts.version || opts.directories.isEmpty then []
    else (opts.directories.map
      (fun t => (rmdirWithConfirmation opts t (env t)).2.2)).flatten

/-- The full event trace: the synchronous pass followed by the deferred
continuations. -/
def mainFullTrace (args : List String) (env : String → TargetEnv) : List Ev :=
  mainSyncTrace args env ++ mainAsyncTrace args env

/-- The per-target state machine has passed inspection on a non-empty
directory with `force` or `brutal` set: the confirmation gate is reached. -/
def gateReached (opts : Options) (e : TargetEnv) : Prop :=
  checkDirectory e.stat = true ∧ isDirectoryEmpty e.stat = false ∧
    (opts.force || opts.brutal) = true

/-! ## Helper lemmas -/

lemma foldl_push_eq (parse : String → Option ProcessHandle) :
    ∀ (lines : List String) (acc : List ProcessHandle),
      lines.foldl (fun acc line =>
        match parse line with
        | some p => acc ++ [p]
        | none => acc) acc = acc ++ lines.filterMap parse := by
  intro lines
  induction lines with
  | nil => intro acc; simp
  | cons l ls ih =>
    intro acc
    cases h : parse l <;> simp [h, ih, List.filterMap_cons]

lemma pushLines_eq_filterMap (parse : String → Option ProcessHandle)
    (lines : List String) : pushLines parse lines = lines.filterMap parse := by
  simpa using foldl_push_eq parse lines []

lemma killFold (kf : List (Option Int × String)) :
    ∀ (ps : List ProcessHandle)
      (acc : List ProcessHandle × List (ProcessHandle × String)),
      ps.foldl (killStep kf) acc =
        (acc.1 ++ ps.filter (fun p => (kf.lookup p.pid).isNone),
         acc.2 ++ ps.filterMap (fun p => (kf.lookup p.pid).map (fun m => (p, m)))) := by
  intro ps
  induction ps with
  | nil => intro acc; simp
  | cons p ps ih =>
    intro acc
    cases h : kf.lookup p.pid <;>
      simp [killStep, h, ih, List.filter_cons, List.filterMap_cons]

/-- `killProcesses` in closed form: the partition by per-attempt outcome
decides resolve versus reject. -/
lemma killProcesses_eq (kf : List (Option Int × String))
    (ps : List ProcessHandle) :
    killProcesses kf ps =
      (if (ps.filterMap (fun p => (kf.lookup p.pid).map (fun m => (p, m)))).isEmpty
       then .ok (ps.filter (fun p => (kf.lookup p.pid).isNone))
       else .error ⟨ps.filter (fun p => (kf.lookup p.pid).isNone),
                    ps.filterMap (fun p => (kf.lookup p.pid).map (fun m => (p, m)))⟩) := by
  unfold killProcesses
  rw [killFold]
  simp

lemma dedup_go_nodup :
    ∀ (ps : List ProcessHandle) (acc : List ProcessHandle)
      (seen : List (Option Int)),
      (acc.map ProcessHandle.pid).Nodup → (∀ q ∈ acc, q.pid ∈ seen) →
      (((ps.foldl dedupStep (acc, seen)).1).map ProcessHandle.pid).Nodup := by
  intro ps
  induction ps with
  | nil => intro acc seen h1 _; simpa using h1
  | cons p ps ih =>
    intro acc seen h1 h2
    by_cases hc : p.pid ∈ seen
    · simpa [dedupStep, hc] using ih acc seen h1 h2
    · have hns : p.pid ∉ seen := hc
      have h1' : ((acc ++ [p]).map ProcessHandle.pid).Nodup := by
        simp only [List.map_append, List.map_cons, List.map_nil]
        rw [List.nodup_append]
        refine ⟨h1, List.nodup_singleton _, ?_⟩
        intro x hx
        simp only [List.mem_singleton]
        intro hxp
        rcases List.mem_map.mp hx with ⟨q, hq, hqp⟩
        exact hns (hxp ▸ hqp ▸ h2 q hq)
      have h2' : ∀ q ∈ acc ++ [p], q.pid ∈ p.pid :: seen := by
        intro q hq
        rcases List.mem_append.mp hq with hq | hq
        · exact List.mem_cons_of_mem _ (h2 q hq)
        · simp only [List.mem_singleton] at hq
          subst hq
          exact List.mem_cons_self _ _
      simpa [dedupStep, hc] using ih (acc ++ [p]) (p.pid :: seen) h1' h2'

/-- The scan result is a set keyed by pid. -/
lemma dedupByPid_nodup (ps : List ProcessHandle) :
    ((dedupByPid ps).map ProcessHandle.pid).Nodup := by
  unfold dedupByPid
  exact dedup_go_nodup ps [] [] (by simp) (by simp)

/-- Shape of the per-target run once the confirmation gate is reached. -/
lemma rmdir_gate_eq (opts : Options) (t : String) (env : TargetEnv)
    (h : gateReached opts env) :
    rmdirWithConfirmation opts t env =
      (let c := confirmDeletion opts t (statNode env.stat) env.answer
       ((if !c.1 then .ok false
         else match env.removeErr with
              | none => .ok true
              | some m => .error m),
        [Ev.inspectEv t] ++ (if opts.yes then [] else [Ev.promptEv t]),
        (if c.1 && opts.brutal then
           [Ev.scanEv t] ++
             (if (getProcessesUsingDirectory env.scan).isEmpty then []
              else [Ev.killEv t])
         else []) ++ [Ev.deleteEv t])) := by
  obtain ⟨h1, h2, h3⟩ := h
  have h4 : opts.force = true ∨ opts.brutal = true := by
    cases hf : opts.force <;> cases hb : opts.brutal <;> simp_all
  rcases h4 with h4 | h4 <;> simp [rmdirWithConfirmation, h1, h2, h4]

/-- Shape of the per-target run for an existing empty directory. -/
lemma rmdir_empty_eq (opts : Options) (t : String) (env : TargetEnv)
    (h1 : checkDirectory env.stat = true)
    (h2 : isDirectoryEmpty env.stat = true) :
    rmdirWithConfirmation opts t env =
      (match env.removeErr with
       | none => (.ok true, [Ev.inspectEv t, Ev.deleteEv t], [])
       | some m => (.error m, [Ev.inspectEv t, Ev.deleteEv t], [])) := by
  simp [rmdirWithConfirmation, h1, h2]

/-- Shape of the per-target run when `checkDirectory` fails. -/
lemma rmdir_check_fail_eq (opts : Options) (t : String) (env : TargetEnv)
    (h : checkDirectory env.stat = false) :
    rmdirWithConfirmation opts t env =
      (.error "Directory check failed", [Ev.inspectEv t], []) := by
  simp [rmdirWithConfirmation, h]

/-- Shape of the per-target run for a non-empty directory without
`force`/`brutal`. -/
lemma rmdir_reject_eq (opts : Options) (t : String) (env : TargetEnv)
    (h1 : checkDirectory env.stat = true)
    (h2 : isDirectoryEmpty env.stat = false)
    (hf : opts.force = false) (hb : opts.brutal = false) :
    rmdirWithConfirmation opts t env =
      (.error "Directory not empty", [Ev.inspectEv t], []) := by
  simp [rmdirWithConfirmation, h1, h2, hf, hb]

/-- The synchronous events of one target's run are among inspection,
prompt and (empty-directory) deletion of that same target. -/
lemma rmdir_sync_subset (opts : Options) (t : String) (env : TargetEnv) :
    (rmdirWithConfirmation opts t env).2.1 ⊆
      [Ev.inspectEv t, Ev.promptEv t, Ev.deleteEv t] := by
  by_cases hc : checkDirectory env.stat = true
  · by_cases he : isDirectoryEmpty env.stat = true
    · rw [rmdir_empty_eq opts t env hc he]
      cases env.removeErr <;> intro ev hev <;> simp at hev <;>
        rcases hev with rfl | rfl <;> simp
    · by_cases hfb : (opts.force || opts.brutal) = true
      · rw [rmdir_gate_eq opts t env ⟨hc, by simpa using he, hfb⟩]
        intro ev hev
        by_cases hy : opts.yes = true <;> simp [hy] at hev
        · simp [hev]
        · rcases hev with rfl | rfl <;> simp
      · have hf : opts.force = false := by cases h : opts.force <;> simp_all
        have hb : opts.brutal = false := by cases h : opts.brutal <;> simp_all
        rw [rmdir_reject_eq opts t env hc (by simpa using he) hf hb]
        intro ev hev; simp at hev; simp [hev]
  · rw [rmdir_check_fail_eq opts t env (by simpa using hc)]
    intro ev hev; simp at hev; simp [hev]

/-- The asynchronous events of one target's run are among scan, kill and
deletion of that same target. -/
lemma rmdir_async_subset (opts : Options) (t : String) (env : TargetEnv) :
    (rmdirWithConfirmation opts t env).2.2 ⊆
      [Ev.scanEv t, Ev.killEv t, Ev.deleteEv t] := by
  by_cases hc : checkDirectory env.stat = true
  · by_cases he : isDirectoryEmpty env.stat = true
    · rw [rmdir_empty_eq opts t env hc he]
      cases env.removeErr <;> intro ev hev <;> simp at hev
    · by_cases hfb : (opts.force || opts.brutal) = true
      · rw [rmdir_gate_eq opts t env ⟨hc, by simpa using he, hfb⟩]
        intro ev hev
        rcases List.mem_append.mp hev with h | h
        · by_cases hcb : ((confirmDeletion opts t (statNode env.stat) env.answer).1
              && opts.brutal) = true <;> simp [hcb] at h
          rcases h with rfl | h
          · simp
          · simp [h.2]
        · simp at h; simp [h]
      · have hf : opts.force = false := by cases h : opts.force <;> simp_all
        have hb : opts.brutal = false := by cases h : opts.brutal <;> simp_all
        rw [rmdir_reject_eq opts t env hc (by simpa using he) hf hb]
        intro ev hev; simp at hev
  · rw [rmdir_check_fail_eq opts t env (by simpa using hc)]
    intro ev hev; simp at hev

/-- Every event a target's run emits is tagged with that target's path. -/
lemma rmdir_tags (opts : Options) (t : String) (env : TargetEnv) :
    (∀ ev ∈ (rmdirWithConfirmation opts t env).2.1, evTag ev = t) ∧
    (∀ ev ∈ (rmdirWithConfirmation opts t env).2.2, evTag ev = t) := by
  constructor
  · intro ev hev
    have := rmdir_sync_subset opts t env hev
    simp at this
    rcases this with rfl | rfl | rfl <;> rfl
  · intro ev hev
    have := rmdir_async_subset opts t env hev
    simp at this
    rcases this with rfl | rfl | rfl <;> rfl

/-- The walk aborts a directory's listing at a stat-throwing entry:
everything from that entry on (the entry and all later siblings)
contributes nothing, whatever it is. -/
lemma walkEntries_badStat (nm : String) (pre post : List (String × FsNode)) :
    walkEntries (pre ++ (nm, FsNode.badStat) :: post) = walkEntries pre := by
  induction pre with
  | nil => rfl
  | cons e rest ih =>
    obtain ⟨n, c⟩ := e
    cases c <;> simp [walkEntries, ih]

/-- A readdir-failing (unreadable) directory entry contributes nothing,
and — unlike a stat failure — leaves all its siblings' contributions
intact. -/
lemma walkEntries_unreadable (nm : String) (sub : List (String × FsNode))
    (pre post : List (String × FsNode)) :
    walkEntries (pre ++ (nm, FsNode.dir false sub) :: post) =
      walkEntries (pre ++ post) := by
  induction pre with
  | nil => simp [walkEntries, walkDir]
  | cons e rest ih =>
    obtain ⟨n, c⟩ := e
    cases c <;> simp [walkEntries, ih]

mutual

/-- On a tree with no stat-throwing entries, the implemented walk agrees
with the specification-side size (each unreadable subtree omitted by
itself). -/
theorem walkDir_eq_claimSize : ∀ (n : FsNode), noBadStat n = true →
    walkDir n = claimSize n
  | .file _, _ => rfl
  | .badStat, h => by simp [noBadStat] at h
  | .dir false _, _ => rfl
  | .dir true es, h => by
    simp only [walkDir, claimSize]
    exact walkEntries_eq_claim es (by simpa [noBadStat] using h)

/-- Entry-list form of `walkDir_eq_claimSize`. -/
theorem walkEntries_eq_claim : ∀ (es : List (String × FsNode)),
    noBadStatEntries es = true → walkEntries es = claimSizeEntries es
  | [], _ => rfl
  | (nm, c) :: rest, h => by
    have h1 : noBadStat c = true ∧ noBadStatEntries rest = true := by
      simpa [noBadStatEntries] using h
    cases c with
    | badStat => simp [noBadStat] at h1
    | file sz =>
      simp only [walkEntries, claimSizeEntries]
      rw [walkEntries_eq_claim rest h1.2]
    | dir rd es2 =>
      simp only [walkEntries, claimSizeEntries]
      rw [walkDir_eq_claimSize (.dir rd es2) h1.1, walkEntries_eq_claim rest h1.2]

end

mutual

/-- The specification-side size is the sum and count of the visible
files: every visible regular file's byte length is accumulated and files
are counted, directories never. -/
theorem claimSize_eq_vis : ∀ (n : FsNode),
    claimSize n = ((visFiles n).sum, (visFiles n).length)
  | .file _ => rfl
  | .badStat => rfl
  | .dir false _ => rfl
  | .dir true es => by
    simp only [claimSize, visFiles]
    exact claimSizeEntries_eq_vis es

/-- Entry-list form of `claimSize_eq_vis`. -/
theorem claimSizeEntries_eq_vis : ∀ (es : List (String × FsNode)),
    claimSizeEntries es = ((visFilesEntries es).sum, (visFilesEntries es).length)
  | [] => rfl
  | (nm, .badStat) :: rest => by
    simp only [claimSizeEntries, visFilesEntries]
    exact claimSizeEntries_eq_vis rest
  | (nm, .file sz) :: rest => by
    simp only [claimSizeEntries, visFilesEntries, List.sum_cons, List.length_cons]
    rw [claimSizeEntries_eq_vis rest]
    simp [Nat.add_comm]
  | (nm, .dir rd es2) :: rest => by
    simp only [claimSizeEntries, visFilesEntries, List.sum_append, List.length_append]
    rw [claimSize_eq_vis (.dir rd es2), claimSizeEntries_eq_vis rest]

end

/-! ## Claim theorems -/

/-- C3, counterexample: `killProcesses` does raise.  On a single handle
whose termination attempt fails, the promise rejects (with the
`{killed, failed}` record as the rejection value) instead of returning a
partition, contradicting "killProcesses never raises". -/
theorem c3_counterexample :
    killProcesses [(some 1, "kill failed")] [⟨some 1, "node"⟩] =
      Except.error ⟨[], [(⟨some 1, "node"⟩, "kill failed")]⟩ := by
  rfl

/-- C3, amended: every termination attempt is made independently — the
fold partitions the input in order into `killed` (attempts whose kill
command succeeded) and `failed` (the rest, with messages) and one failure
never aborts the batch; when no attempt failed the promise RESOLVES with
the bare `killed` list (on the empty set, with `[]`, not with a
`{killed: [], failed: []}` record); when some attempt failed it REJECTS
with the `{killed, failed}` partition; and the orchestrator catches that
rejection and proceeds to deletion regardless — once the confirmation
gate is passed the deletion stage runs for every value of `killFails`. -/
theorem c3_amended (kf : List (Option Int × String)) (ps : List ProcessHandle) :
    killProcesses kf ps =
      (if (ps.filterMap (fun p => (kf.lookup p.pid).map (fun m => (p, m)))).isEmpty
       then .ok (ps.filter (fun p => (kf.lookup p.pid).isNone))
       else .error ⟨ps.filter (fun p => (kf.lookup p.pid).isNone),
                    ps.filterMap (fun p => (kf.lookup p.pid).map (fun m => (p, m)))⟩) ∧
    killProcesses kf [] = .ok [] ∧
    (∀ (opts : Options) (t : String) (env : TargetEnv),
      gateReached opts env →
      Ev.deleteEv t ∈ (rmdirWithConfirmation opts t env).2.2) := by
  refine ⟨killProcesses_eq kf ps, rfl, ?_⟩
  intro opts t env h
  rw [rmdir_gate_eq opts t env h]
  simp

/-- Witness for `c3_amended` at concrete inputs: a two-handle batch with
one failing attempt still processes the other handle and rejects with the
partition; and a target whose kill phase will fail still has its deletion
event in the continuation events. -/
theorem c3_amended_witness :
    killProcesses [(some 2, "m")] [⟨some 1, "a"⟩, ⟨some 2, "b"⟩] =
      Except.error ⟨[⟨some 1, "a"⟩], [(⟨some 2, "b"⟩, "m")]⟩ ∧
    Ev.deleteEv "d" ∈ (rmdirWithConfirmation
      ⟨true, false, false, false, false, ["d"]⟩ "d"
      ⟨.node (.dir true [("x", .file 1)]), "n", ⟨false, none, none, none⟩,
        [(some 2, "m")], none⟩).2.2 := by
  constructor
  · rw [(c3_amended [(some 2, "m")] [⟨some 1, "a"⟩, ⟨some 2, "b"⟩]).1]
    rfl
  · exact (c3_amended [] []).2.2 ⟨true, false, false, false, false, ["d"]⟩ "d"
      ⟨.node (.dir true [("x", .file 1)]), "n", ⟨false, none, none, none⟩,
        [(some 2, "m")], none⟩ ⟨rfl, rfl, rfl⟩

/-- C5: for an existing empty target directory — and for every flag
combination — the run consists of exactly the inspection followed by a
direct invocation of the deleter: no confirmation prompt, no process
scan, no kill, and (the deleter succeeding) a successful resolution. -/
theorem c5_empty_direct_delete (opts : Options) (dirpath : String)
    (env : TargetEnv) (hstat : env.stat = .node (.dir true []))
    (hrm : env.removeErr = none) :
    rmdirWithConfirmation opts dirpath env =
      (.ok true, [.inspectEv dirpath, .deleteEv dirpath], []) ∧
    Ev.promptEv dirpath ∉
      ((rmdirWithConfirmation opts dirpath env).2.1 ++
       (rmdirWithConfirmation opts dirpath env).2.2) ∧
    Ev.scanEv dirpath ∉
      ((rmdirWithConfirmation opts dirpath env).2.1 ++
       (rmdirWithConfirmation opts dirpath env).2.2) ∧
    Ev.killEv dirpath ∉
      ((rmdirWithConfirmation opts dirpath env).2.1 ++
       (rmdirWithConfirmation opts dirpath env).2.2) := by
  have h1 : checkDirectory env.stat = true := by rw [hstat]; rfl
  have h2 : isDirectoryEmpty env.stat = true := by rw [hstat]; rfl
  have heq := rmdir_empty_eq opts dirpath env h1 h2
  rw [hrm] at heq
  refine ⟨heq, ?_, ?_, ?_⟩ <;> rw [heq] <;> simp

/-- Witness for `c5_empty_direct_delete`, with all of force, brutal and
yes set at once. -/
theorem c5_witness :
    rmdirWithConfirmation ⟨true, true, true, false, false, ["d"]⟩ "d"
      ⟨.node (.dir true []), "n", ⟨false, none, none, none⟩, [], none⟩ =
      (.ok true, [.inspectEv "d", .deleteEv "d"], []) := by
  exact (c5_empty_direct_delete ⟨true, true, true, false, false, ["d"]⟩ "d"
    ⟨.node (.dir true []), "n", ⟨false, none, none, none⟩, [], none⟩ rfl rfl).1

/-- C7: the confirmation gate.  With `yes` set it returns true at once,
printing nothing and reading nothing — the result is a constant,
independent of the path, the directory contents and the answer.
Otherwise it is affirmative exactly for answers whose lowercasing is
`"y"` or `"yes"`, a decline (any other answer, the empty one included) is
reported as a cancellation message, and the note that running processes
will be terminated appears exactly when brutal mode is active. -/
theorem c7_confirmation_gate (opts : Options) (p : String) (n : FsNode)
    (ans : String) :
    (opts.yes = true → confirmDeletion opts p n ans = (true, [])) ∧
    (opts.yes = false →
      ((confirmDeletion opts p n ans).1 =
        (jsToLower ans == "y" || jsToLower ans == "yes") ∧
       (Msg.cancelled ∈ (confirmDeletion opts p n ans).2 ↔
        (confirmDeletion opts p n ans).1 = false) ∧
       (Msg.brutalNote ∈ (confirmDeletion opts p n ans).2 ↔
        opts.brutal = true))) := by
  constructor
  · intro h; simp [confirmDeletion, h]
  · intro h
    cases hb : opts.brutal <;>
      cases hc : (jsToLower ans == "y" || jsToLower ans == "yes") <;>
        simp [confirmDeletion, h, hb, hc]

/-- Witness for `c7_confirmation_gate`: non-interactive mode answers true
with no output even on a declining answer; interactively, `"YES"`
confirms and the brutal note is shown exactly in brutal mode. -/
theorem c7_witness :
    confirmDeletion ⟨false, false, true, false, false, []⟩ "d" (.file 0) "n" =
      (true, []) ∧
    Msg.brutalNote ∈
      (confirmDeletion ⟨false, true, false, false, false, []⟩ "d"
        (.dir true []) "YES").2 := by
  constructor
  · exact (c7_confirmation_gate ⟨false, false, true, false, false, []⟩ "d"
      (.file 0) "n").1 rfl
  · exact ((c7_confirmation_gate ⟨false, true, false, false, false, []⟩ "d"
      (.dir true []) "YES").2 rfl).2.2.mpr rfl

/-- C9, counterexample: a stat error does not omit "exactly that
subtree's contribution".  In a readable directory whose first entry's
`statSync` throws and whose second entry is a 5-byte regular file, the
implemented walk reports `(0, 0)` — the error aborted the directory's
`forEach`, losing the sibling file — while omitting exactly the erroring
subtree (the specification-side `claimSize`) would report `(5, 1)`. -/
theorem c9_counterexample :
    getDirectorySize (.dir true [("a", .badStat), ("b", .file 5)]) = (0, 0) ∧
    claimSize (.dir true [("a", .badStat), ("b", .file 5)]) = (5, 1) ∧
    getDirectorySize (.dir true [("a", .badStat), ("b", .file 5)]) ≠
      claimSize (.dir true [("a", .badStat), ("b", .file 5)]) := by
  refine ⟨rfl, rfl, by decide⟩

/-- C9, amended: `computeSize` never throws and returns partial results;
on trees without stat-throwing entries it accumulates exactly the byte
lengths and the count of the visible regular files (directories never
counted), and a readdir error omits exactly that subtree, siblings
intact; a stat error on an entry, however, additionally omits that
directory's remaining (later) siblings.  `isEmpty` is true iff the direct
entry count is zero and is false on every read error. -/
theorem c9_amended (n : FsNode) (es sub pre post : List (String × FsNode))
    (nm : String) :
    (noBadStat n = true → getDirectorySize n = claimSize n) ∧
    (noBadStat n = true →
      getDirectorySize n = ((visFiles n).sum, (visFiles n).length)) ∧
    (walkEntries (pre ++ (nm, FsNode.dir false sub) :: post) =
      walkEntries (pre ++ post)) ∧
    (walkEntries (pre ++ (nm, FsNode.badStat) :: post) = walkEntries pre) ∧
    (isDirectoryEmpty (.node (.dir true es)) = (es.length == 0)) ∧
    (∀ c, isDirectoryEmpty (.statErr c) = false) ∧
    (isDirectoryEmpty (.node (.dir false es)) = false) ∧
    (∀ sz, isDirectoryEmpty (.node (.file sz)) = false) := by
  refine ⟨fun h => walkDir_eq_claimSize n h, fun h => ?_,
    walkEntries_unreadable nm sub pre post,
    walkEntries_badStat nm pre post, rfl, fun c => rfl, rfl, fun sz => rfl⟩
  rw [getDirectorySize, walkDir_eq_claimSize n h, claimSize_eq_vis n]

/-- Witness for `c9_amended` on a concrete two-level tree without stat
errors: one visible file of 7 bytes inside a readable subdirectory plus
one unreadable subdirectory. -/
theorem c9_witness :
    getDirectorySize
        (.dir true [("s", .dir true [("f", .file 7)]), ("u", .dir false [("g", .file 9)])]) =
      (7, 1) := by
  have h := (c9_amended
    (.dir true [("s", .dir true [("f", .file 7)]), ("u", .dir false [("g", .file 9)])])
    [] [] [] [] "x").2.1 (by decide)
  simpa using h

/-! ## Argument parser characterization -/

/-- The ten flag tokens are recognized, not unknown, and all begin with a
dash. -/
lemma flagFacts :
    isUnknownOption "--help" = false ∧ isUnknownOption "-h" = false ∧
    isUnknownOption "--version" = false ∧ isUnknownOption "-v" = false ∧
    isUnknownOption "--force" = false ∧ isUnknownOption "-f" = false ∧
    isUnknownOption "--brutal" = false ∧ isUnknownOption "-b" = false ∧
    isUnknownOption "--yes" = false ∧ isUnknownOption "-y" = false ∧
    jsStartsWith "--help" "-" = true ∧ jsStartsWith "-h" "-" = true ∧
    jsStartsWith "--version" "-" = true ∧ jsStartsWith "-v" "-" = true ∧
    jsStartsWith "--force" "-" = true ∧ jsStartsWith "-f" "-" = true ∧
    jsStartsWith "--brutal" "-" = true ∧ jsStartsWith "-b" "-" = true ∧
    jsStartsWith "--yes" "-" = true ∧ jsStartsWith "-y" "-" = true := by
  decide

/-- A recognized flag token is not an unknown option. -/
lemma isUnknownOption_flag (a : String) (h : isFlagToken a = true) :
    isUnknownOption a = false := by
  simp [isUnknownOption, h]

/-- Every recognized flag token begins with a dash. -/
lemma flag_starts_dash (a : String) (h : isFlagToken a = true) :
    jsStartsWith a "-" = true := by
  simp only [isFlagToken, Bool.or_eq_true, beq_iff_eq] at h
  rcases h with ((((((((rfl|rfl)|rfl)|rfl)|rfl)|rfl)|rfl)|rfl)|rfl)|rfl <;> rfl

/-- Single-pass characterization of the parser loop: it errors iff some
token is an unknown option; otherwise each boolean is the disjunction of
its starting value with the presence of its tokens, and the targets are
the non-dash tokens appended in order. -/
lemma parseArgsGo_eq : ∀ (args : List String) (o : Options),
    parseArgsGo args o =
      (if args.any isUnknownOption then .error () else .ok
        { force := o.force || args.any (fun a => a == "--force" || a == "-f"),
          brutal := o.brutal || args.any (fun a => a == "--brutal" || a == "-b"),
          yes := o.yes || args.any (fun a => a == "--yes" || a == "-y"),
          help := o.help || args.any (fun a => a == "--help" || a == "-h"),
          version := o.version || args.any (fun a => a == "--version" || a == "-v"),
          directories := o.directories ++ args.filter (fun a => !(jsStartsWith a "-")) }) := by
  intro args
  induction args with
  | nil => intro o; simp [parseArgsGo]
  | cons a rest ih =>
    intro o
    by_cases h1 : (a == "--help" || a == "-h") = true
    · rcases (by simpa using h1 : a = "--help" ∨ a = "-h") with rfl | rfl <;>
        simp [parseArgsGo, ih, flagFacts]
    · by_cases h2 : (a == "--version" || a == "-v") = true
      · rcases (by simpa using h2 : a = "--version" ∨ a = "-v") with rfl | rfl <;>
          simp [parseArgsGo, ih, flagFacts]
      · by_cases h3 : (a == "--force" || a == "-f") = true
        · rcases (by simpa using h3 : a = "--force" ∨ a = "-f") with rfl | rfl <;>
            simp [parseArgsGo, ih, flagFacts]
        · by_cases h4 : (a == "--brutal" || a == "-b") = true
          · rcases (by simpa using h4 : a = "--brutal" ∨ a = "-b") with rfl | rfl <;>
              simp [parseArgsGo, ih, flagFacts]
          · by_cases h5 : (a == "--yes" || a == "-y") = true
            · rcases (by simpa using h5 : a = "--yes" ∨ a = "-y") with rfl | rfl <;>
                simp [parseArgsGo, ih, flagFacts]
            · simp only [Bool.not_eq_true, Bool.or_eq_false_iff] at h1 h2 h3 h4 h5
              have hFlag : isFlagToken a = false := by
                simp [isFlagToken, h1.1, h1.2, h2.1, h2.2, h3.1, h3.2,
                  h4.1, h4.2, h5.1, h5.2]
              by_cases h6 : jsStartsWith a "-" = true
              · have hu : isUnknownOption a = true := by
                  simp [isUnknownOption, h6, hFlag]
                simp [parseArgsGo, h1.1, h1.2, h2.1, h2.2, h3.1, h3.2,
                  h4.1, h4.2, h5.1, h5.2, h6, hu]
              · have hu : isUnknownOption a = false := by
                  simp only [Bool.not_eq_true] at h6
                  simp [isUnknownOption, h6]
                simp only [Bool.not_eq_true] at h6
                simp [parseArgsGo, ih, h1.1, h1.2, h2.1, h2.2, h3.1, h3.2,
                  h4.1, h4.2, h5.1, h5.2, h6, hu]

/-- `parseArgs` in closed form. -/
lemma parseArgs_eq (args : List String) :
    parseArgs args =
      (if args.any isUnknownOption then .error () else .ok
        { force := args.any (fun a => a == "--force" || a == "-f"),
          brutal := args.any (fun a => a == "--brutal" || a == "-b"),
          yes := args.any (fun a => a == "--yes" || a == "-y"),
          help := args.any (fun a => a == "--help" || a == "-h"),
          version := args.any (fun a => a == "--version" || a == "-v"),
          directories := args.filter (fun a => !(jsStartsWith a "-")) }) := by
  rw [parseArgs, parseArgsGo_eq]
  simp [initOptions]

/-- `any` over a list with one element spliced into the middle. -/
lemma any_middle (p : String → Bool) (f : String) (l1 l2 : List String) :
    (l1 ++ f :: l2).any p = (p f || (l1 ++ l2).any p) := by
  simp only [List.any_append, List.any_cons]
  cases p f <;> cases l1.any p <;> cases l2.any p <;> rfl

/-- `filter` ignores a spliced-in element the predicate rejects. -/
lemma filter_middle (q : String → Bool) (f : String) (hq : q f = false)
    (l1 l2 : List String) :
    (l1 ++ f :: l2).filter q = (l1 ++ l2).filter q := by
  simp [List.filter_append, List.filter_cons, hq]

/-- C10: the parsed options are invariant under moving a recognized flag
token anywhere in the argument list (so a flag after some or all targets
applies to the whole invocation, whose options are built before any
target is processed), repeating a flag is idempotent, and the targets of
a successful parse are exactly the non-dash tokens in their original
relative order. -/
theorem c10_flag_position_invariance (f : String) (hf : isFlagToken f = true) :
    (∀ l1 l2 l1' l2' : List String, l1 ++ l2 = l1' ++ l2' →
      parseArgs (l1 ++ f :: l2) = parseArgs (l1' ++ f :: l2')) ∧
    (∀ l1 l2 : List String,
      parseArgs (l1 ++ f :: f :: l2) = parseArgs (l1 ++ f :: l2)) ∧
    (∀ (args : List String) (opts : Options), parseArgs args = .ok opts →
      opts.directories = args.filter (fun a => !(jsStartsWith a "-"))) := by
  have hq : (!(jsStartsWith f "-")) = false := by
    simp [flag_starts_dash f hf]
  refine ⟨?_, ?_, ?_⟩
  · intro l1 l2 l1' l2' h
    rw [parseArgs_eq, parseArgs_eq]
    simp only [any_middle,
      filter_middle (fun a => !(jsStartsWith a "-")) f hq, h]
  · intro l1 l2
    rw [parseArgs_eq, parseArgs_eq]
    simp only [any_middle,
      filter_middle (fun a => !(jsStartsWith a "-")) f hq]
    simp only [← Bool.or_assoc, Bool.or_self]
  · intro args opts h
    rw [parseArgs_eq] at h
    by_cases hu : args.any isUnknownOption = true
    · simp [hu] at h
    · simp only [Bool.not_eq_true] at hu
      simp only [hu, Bool.false_eq_true, if_false, Except.ok.injEq] at h
      subst h
      rfl

/-- Witness for `c10_flag_position_invariance` with `-f`: moving the flag
from the middle to the front, collapsing a repetition, and the target
list of a successful parse. -/
theorem c10_witness :
    parseArgs ["a", "-f", "b"] = parseArgs ["-f", "a", "b"] ∧
    parseArgs ["-f", "-f", "a"] = parseArgs ["-f", "a"] ∧
    (⟨true, false, false, false, false, ["a", "b"]⟩ : Options).directories =
      ["a", "-f", "b"].filter (fun a => !(jsStartsWith a "-")) := by
  refine ⟨?_, ?_, ?_⟩
  · exact (c10_flag_position_invariance "-f" rfl).1 ["a"] ["b"] [] ["a", "b"] rfl
  · exact (c10_flag_position_invariance "-f" rfl).2.1 [] ["a"]
  · exact (c10_flag_position_invariance "-f" rfl).2.2 ["a", "-f", "b"]
      ⟨true, false, false, false, false, ["a", "b"]⟩ rfl

/-! ## Promise.all and main-execution lemmas -/

/-- `promiseAll` over a list of resolutions yields the value list. -/
lemma promiseAll_map_ok : ∀ (bs : List Bool),
    promiseAll (bs.map Except.ok) = .ok bs := by
  intro bs
  induction bs with
  | nil => rfl
  | cons b rest ih => simp [promiseAll, ih, Except.map]

/-- If `promiseAll` yields a value list, every input was the
corresponding resolution. -/
lemma promiseAll_ok_inv : ∀ (l : List (Except String Bool)) (bs : List Bool),
    promiseAll l = .ok bs → l = bs.map Except.ok := by
  intro l
  induction l with
  | nil =>
    intro bs h
    simp only [promiseAll, Except.ok.injEq] at h
    subst h
    rfl
  | cons r rest ih =>
    intro bs h
    cases r with
    | error e => simp [promiseAll] at h
    | ok b =>
      simp only [promiseAll] at h
      cases hrest : promiseAll rest with
      | error e => rw [hrest] at h; simp [Except.map] at h
      | ok bs2 =>
        rw [hrest] at h
        simp only [Except.map, Except.ok.injEq] at h
        subst h
        simp [ih bs2 hrest]

/-- A rejection reported by `promiseAll` is one of its inputs'. -/
lemma promiseAll_error_mem : ∀ (l : List (Except String Bool)) (m : String),
    promiseAll l = .error m → Except.error m ∈ l := by
  intro l
  induction l with
  | nil => intro m h; simp [promiseAll] at h
  | cons r rest ih =>
    intro m h
    cases r with
    | error e =>
      simp only [promiseAll, Except.error.injEq] at h
      subst h
      exact List.mem_cons_self _ _
    | ok b =>
      simp only [promiseAll] at h
      cases hrest : promiseAll rest with
      | error e =>
        rw [hrest] at h
        simp only [Except.map, Except.error.injEq] at h
        subst h
        exact List.mem_cons_of_mem _ (ih _ hrest)
      | ok bs => rw [hrest] at h; simp [Except.map] at h

/-- `promiseAll` rejects whenever some input rejected. -/
lemma promiseAll_error_of_mem : ∀ (l : List (Except String Bool)) (m : String),
    Except.error m ∈ l → ∃ m2, promiseAll l = .error m2 := by
  intro l
  induction l with
  | nil => intro m h; simp at h
  | cons r rest ih =>
    intro m h
    rcases List.mem_cons.mp h with heq | hmem
    · exact ⟨m, by rw [← heq]; rfl⟩
    · cases r with
      | error e => exact ⟨e, rfl⟩
      | ok b =>
        obtain ⟨m2, hm2⟩ := ih m hmem
        exact ⟨m2, by simp [promiseAll, hm2, Except.map]⟩

/-- When every promise resolved `true`, `Promise.all` resolves with the
all-`true` list. -/
lemma promiseAll_all_true : ∀ (l : List (Except String Bool)),
    (∀ r ∈ l, r = .ok true) →
    promiseAll l = .ok (List.replicate l.length true) := by
  intro l
  induction l with
  | nil => intro _; rfl
  | cons r rest ih =>
    intro h
    have hr : r = .ok true := h r (List.mem_cons_self _ _)
    subst hr
    have := ih (fun r hr => h r (List.mem_cons_of_mem _ hr))
    simp [promiseAll, this, Except.map, List.replicate]

/-- The main execution in its processing branch (neither help, version
nor the no-target error applies). -/
lemma mainRun_processing (args : List String) (env : String → TargetEnv)
    (opts : Options) (hparse : parseArgs args = .ok opts)
    (hh : opts.help = false) (hv : opts.version = false)
    (hd : opts.directories ≠ []) :
    mainRun args env =
      (match promiseAll (targetResults opts env) with
       | .error m => .operationFailed m
       | .ok bs =>
         if bs.count true = bs.length then .allSuccess
         else .countSummary (bs.count true) bs.length) := by
  have hie : opts.directories.isEmpty = false := by
    simp [List.isEmpty_eq_false, hd]
  simp only [mainRun, hparse, hh, hv, hie]
  rfl

/-- The synchronous trace in the processing branch: the executors' events
in target order. -/
lemma mainSyncTrace_processing (args : List String) (env : String → TargetEnv)
    (opts : Options) (hparse : parseArgs args = .ok opts)
    (hh : opts.help = false) (hv : opts.version = false)
    (hd : opts.directories ≠ []) :
    mainSyncTrace args env =
      (opts.directories.map
        (fun t => (rmdirWithConfirmation opts t (env t)).2.1)).flatten := by
  have hie : opts.directories.isEmpty = false := by
    simp [List.isEmpty_eq_false, hd]
  simp [mainSyncTrace, hparse, hh, hv, hie]

/-- The continuation trace in the processing branch. -/
lemma mainAsyncTrace_processing (args : List String) (env : String → TargetEnv)
    (opts : Options) (hparse : parseArgs args = .ok opts)
    (hh : opts.help = false) (hv : opts.version = false)
    (hd : opts.directories ≠ []) :
    mainAsyncTrace args env =
      (opts.directories.map
        (fun t => (rmdirWithConfirmation opts t (env t)).2.2)).flatten := by
  have hie : opts.directories.isEmpty = false := by
    simp [List.isEmpty_eq_false, hd]
  simp [mainAsyncTrace, hparse, hh, hv, hie]

/-- Every target's run inspects it during the synchronous pass. -/
lemma rmdir_inspect_mem (opts : Options) (t : String) (env : TargetEnv) :
    Ev.inspectEv t ∈ (rmdirWithConfirmation opts t env).2.1 := by
  by_cases hc : checkDirectory env.stat = true
  · by_cases he : isDirectoryEmpty env.stat = true
    · rw [rmdir_empty_eq opts t env hc he]
      cases env.removeErr <;> simp
    · by_cases hfb : (opts.force || opts.brutal) = true
      · rw [rmdir_gate_eq opts t env ⟨hc, by simpa using he, hfb⟩]
        simp
      · have hf : opts.force = false := by cases h : opts.force <;> simp_all
        have hb : opts.brutal = false := by cases h : opts.brutal <;> simp_all
        rw [rmdir_reject_eq opts t env hc (by simpa using he) hf hb]
        simp
  · rw [rmdir_check_fail_eq opts t env (by simpa using hc)]
    simp

/-- C4: in the processing branch the exit status is 0 iff every target's
promise resolved `true`; when every target settled by resolving but some
resolved `false` (a declined confirmation), the run ends in the
`succ out of total` count summary (reported distinctly from the rejection
handler) with exit code 1; an argument list containing an unknown
`-`-prefixed token exits 1 from the parser after printing usage; and an
invocation without help/version and without targets prints the
no-directory error and usage and exits 1. -/
theorem c4_exit_status (args : List String) (env : String → TargetEnv)
    (opts : Options) :
    (parseArgs args = .ok opts → opts.help = false → opts.version = false →
      opts.directories ≠ [] →
      ((exitCode (mainRun args env) = 0 ↔
        ∀ r ∈ targetResults opts env, r = .ok true) ∧
       ((∀ r ∈ targetResults opts env, ∃ b, r = .ok b) →
        (∃ r ∈ targetResults opts env, r = .ok false) →
        (∃ s tot, mainRun args env = .countSummary s tot ∧ s < tot) ∧
          exitCode (mainRun args env) = 1))) ∧
    ((∃ a ∈ args, isUnknownOption a = true) →
      mainRun args env = .unknownOption ∧ exitCode (mainRun args env) = 1) ∧
    (parseArgs args = .ok opts → opts.help = false → opts.version = false →
      opts.directories = [] →
      mainRun args env = .noDirError ∧ exitCode (mainRun args env) = 1) := by
  refine ⟨?_, ?_, ?_⟩
  · intro hparse hh hv hd
    rw [mainRun_processing args env opts hparse hh hv hd]
    cases hP : promiseAll (targetResults opts env) with
    | error m =>
      constructor
      · simp only [exitCode]
        constructor
        · intro h; exact absurd h (by simp)
        · intro hall
          have hmem := promiseAll_error_mem _ _ hP
          have := hall _ hmem
          simp at this
      · intro hok _
        have hmem := promiseAll_error_mem _ _ hP
        obtain ⟨b, hb⟩ := hok _ hmem
        simp at hb
    | ok bs =>
      have hres : targetResults opts env = bs.map Except.ok :=
        promiseAll_ok_inv _ _ hP
      by_cases hall : bs.count true = bs.length
      · have htrue : ∀ b ∈ bs, b = true := by
          intro b hb
          exact (List.count_eq_length.mp hall b hb).symm
        simp only [hall, if_pos rfl, exitCode]
        constructor
        · constructor
          · intro _ r hr
            rw [hres] at hr
            obtain ⟨b, hb, rfl⟩ := List.mem_map.mp hr
            rw [htrue b hb]
          · intro _; rfl
        · intro _ hfalse
          obtain ⟨r, hr, hrf⟩ := hfalse
          rw [hres] at hr
          obtain ⟨b, hb, rfl⟩ := List.mem_map.mp hr
          rw [htrue b hb] at hrf
          simp at hrf
      · simp only [hall, if_neg hall, exitCode]
        constructor
        · constructor
          · intro h; exact absurd h (by simp)
          · intro hallok
            exfalso
            apply hall
            apply List.count_eq_length.mpr
            intro b hb
            have : Except.ok b ∈ targetResults opts env := by
              rw [hres]; exact List.mem_map.mpr ⟨b, hb, rfl⟩
            have := hallok _ this
            simpa using this.symm
        · intro _ _
          refine ⟨⟨bs.count true, bs.length, rfl, ?_⟩, rfl⟩
          exact Nat.lt_of_le_of_ne (List.count_le_length _ _) hall
  · intro ⟨a, ha, hu⟩
    have hany : args.any isUnknownOption = true :=
      List.any_eq_true.mpr ⟨a, ha, hu⟩
    have : parseArgs args = .error () := by
      rw [parseArgs_eq, if_pos hany]
    simp [mainRun, this, exitCode]
  · intro hparse hh hv hd
    have hie : opts.directories.isEmpty = true := by simp [hd]
    simp [mainRun, hparse, hh, hv, hie, exitCode]

/-- Witness for `c4_exit_status`: an empty directory deleted with no
flags exits 0; a two-target run where one confirmation is declined ends
in the `1 out of 2` summary; an unknown option and a target-less
invocation both exit 1. -/
theorem c4_witness :
    exitCode (mainRun ["a"]
      (fun _ => ⟨.node (.dir true []), "", ⟨false, none, none, none⟩, [], none⟩)) = 0 ∧
    mainRun ["-x", "a"]
      (fun _ => ⟨.node (.dir true []), "", ⟨false, none, none, none⟩, [], none⟩) =
      .unknownOption ∧
    mainRun ["--force"]
      (fun _ => ⟨.node (.dir true []), "", ⟨false, none, none, none⟩, [], none⟩) =
      .noDirError := by
  refine ⟨?_, ?_, ?_⟩
  · refine (((c4_exit_status ["a"]
      (fun _ => ⟨.node (.dir true []), "", ⟨false, none, none, none⟩, [], none⟩)
      ⟨false, false, false, false, false, ["a"]⟩).1 rfl rfl rfl
      (by decide)).1).mpr ?_
    intro r hr
    rw [show targetResults ⟨false, false, false, false, false, ["a"]⟩
      (fun _ => ⟨.node (.dir true []), "", ⟨false, none, none, none⟩, [], none⟩) =
      [Except.ok true] from rfl] at hr
    simpa using hr
  · exact ((c4_exit_status ["-x", "a"]
      (fun _ => ⟨.node (.dir true []), "", ⟨false, none, none, none⟩, [], none⟩)
      ⟨false, false, false, false, false, []⟩).2.1 ⟨"-x", by decide, by decide⟩).1
  · exact ((c4_exit_status ["--force"]
      (fun _ => ⟨.node (.dir true []), "", ⟨false, none, none, none⟩, [], none⟩)
      ⟨true, false, false, false, false, []⟩).2.2 rfl rfl rfl rfl).1

/-- C6: an existing non-empty directory without `force`/`brutal` is
rejected with the not-empty guidance error (a failure), its run never
emits a deleter invocation — the directory and its contents are left
untouched — and the whole invocation exits 1. -/
theorem c6_nonempty_rejected (args : List String) (env : String → TargetEnv)
    (opts : Options) (t : String) (es : List (String × FsNode))
    (hparse : parseArgs args = .ok opts) (hh : opts.help = false)
    (hv : opts.version = false) (hf : opts.force = false)
    (hb : opts.brutal = false) (ht : t ∈ opts.directories)
    (hstat : (env t).stat = .node (.dir true es)) (hes : es ≠ []) :
    (rmdirWithConfirmation opts t (env t)).1 = .error "Directory not empty" ∧
    Ev.deleteEv t ∉ ((rmdirWithConfirmation opts t (env t)).2.1 ++
      (rmdirWithConfirmation opts t (env t)).2.2) ∧
    exitCode (mainRun args env) = 1 := by
  have h1 : checkDirectory (env t).stat = true := by rw [hstat]; rfl
  have h2 : isDirectoryEmpty (env t).stat = false := by
    rw [hstat]
    simp [isDirectoryEmpty, List.length_eq_zero, hes]
  have hshape := rmdir_reject_eq opts t (env t) h1 h2 hf hb
  refine ⟨by rw [hshape], by rw [hshape]; simp, ?_⟩
  have hd : opts.directories ≠ [] := List.ne_nil_of_mem ht
  have hmem : Except.error "Directory not empty" ∈ targetResults opts env := by
    refine List.mem_map.mpr ⟨t, ht, ?_⟩
    rw [hshape]
  obtain ⟨m2, hm2⟩ := promiseAll_error_of_mem _ _ hmem
  rw [mainRun_processing args env opts hparse hh hv hd, hm2]
  rfl

/-- Witness for `c6_nonempty_rejected` at a concrete one-file directory
and no flags. -/
theorem c6_witness :
    (rmdirWithConfirmation ⟨false, false, false, false, false, ["d"]⟩ "d"
      ⟨.node (.dir true [("x", .file 1)]), "", ⟨false, none, none, none⟩, [], none⟩).1 =
      .error "Directory not empty" ∧
    exitCode (mainRun ["d"] (fun _ =>
      ⟨.node (.dir true [("x", .file 1)]), "", ⟨false, none, none, none⟩, [], none⟩)) = 1 := by
  have h := c6_nonempty_rejected ["d"] (fun _ =>
      ⟨.node (.dir true [("x", .file 1)]), "", ⟨false, none, none, none⟩, [], none⟩)
    ⟨false, false, false, false, false, ["d"]⟩ "d" [("x", .file 1)]
    rfl rfl rfl rfl rfl (by decide) rfl (by simp)
  exact ⟨h.1, h.2.2⟩

/-- Environment for the aggregation scenario: target `a` is missing
(ENOENT), every other target is an existing empty directory whose
deletion succeeds. -/
def c1env : String → TargetEnv := fun t =>
  if t == "a" then ⟨.statErr .enoent, "", ⟨false, none, none, none⟩, [], none⟩
  else ⟨.node (.dir true []), "", ⟨false, none, none, none⟩, [], none⟩

/-- C1, counterexample: with target `a` missing and target `b` an
existing empty directory, the run does delete `b` and exits 1, but no
`1 out of 2` aggregate summary is produced: `Promise.all` rejects with
the first check failure and the run ends in the catch branch
(`Operation failed: ...`), which reports no count of successes. -/
theorem c1_counterexample :
    mainRun ["a", "b"] c1env = .operationFailed "Directory check failed" ∧
    mainRun ["a", "b"] c1env ≠ .countSummary 1 2 ∧
    Ev.deleteEv "b" ∈ mainSyncTrace ["a", "b"] c1env ∧
    exitCode (mainRun ["a", "b"] c1env) = 1 := by
  refine ⟨rfl, by decide, by decide, rfl⟩

/-- C1, amended: in a run whose targets are each either missing or
existing-and-empty (with deletion succeeding), every target is attempted
— each empty one's deletion happens (already during the synchronous
promise-creation pass) and each missing one's promise rejects with the
check failure; the exit code is 1 exactly when some target is missing
(0 otherwise, with the all-success line); but when some target is
missing, `Promise.all` short-circuits to the catch handler, the run ends
in `Operation failed` and the `succ out of total` count summary is never
printed — that summary appears only in runs where no target rejects. -/
theorem c1_amended (args : List String) (env : String → TargetEnv)
    (opts : Options)
    (hparse : parseArgs args = .ok opts) (hh : opts.help = false)
    (hv : opts.version = false) (hd : opts.directories ≠ [])
    (hme : ∀ t ∈ opts.directories,
      (env t).stat = .statErr .enoent ∨
      ((env t).stat = .node (.dir true []) ∧ (env t).removeErr = none)) :
    (∀ t ∈ opts.directories,
      (env t).stat = .node (.dir true []) → (env t).removeErr = none →
      Ev.deleteEv t ∈ mainSyncTrace args env) ∧
    (∀ t ∈ opts.directories, (env t).stat = .statErr .enoent →
      (rmdirWithConfirmation opts t (env t)).1 = .error "Directory check failed") ∧
    ((∃ t ∈ opts.directories, (env t).stat = .statErr .enoent) →
      mainRun args env = .operationFailed "Directory check failed" ∧
      exitCode (mainRun args env) = 1 ∧
      ∀ s tot, mainRun args env ≠ .countSummary s tot) ∧
    ((∀ t ∈ opts.directories, (env t).stat ≠ .statErr .enoent) →
      mainRun args env = .allSuccess ∧ exitCode (mainRun args env) = 0) := by
  have hflat := mainSyncTrace_processing args env opts hparse hh hv hd
  have hmain := mainRun_processing args env opts hparse hh hv hd
  refine ⟨?_, ?_, ?_, ?_⟩
  · intro t ht hstat hrm
    rw [hflat]
    refine List.mem_flatten.mpr ⟨(rmdirWithConfirmation opts t (env t)).2.1,
      List.mem_map.mpr ⟨t, ht, rfl⟩, ?_⟩
    have h1 : checkDirectory (env t).stat = true := by rw [hstat]; rfl
    have h2 : isDirectoryEmpty (env t).stat = true := by rw [hstat]; rfl
    rw [rmdir_empty_eq opts t (env t) h1 h2, hrm]
    simp
  · intro t ht hstat
    have h1 : checkDirectory (env t).stat = false := by rw [hstat]; rfl
    rw [rmdir_check_fail_eq opts t (env t) h1]
  · rintro ⟨t, ht, hmiss⟩
    have hchar : ∀ r ∈ targetResults opts env,
        r = .ok true ∨ r = .error "Directory check failed" := by
      intro r hr
      obtain ⟨t2, ht2, rfl⟩ := List.mem_map.mp hr
      rcases hme t2 ht2 with hm | ⟨hs, hr2⟩
      · right
        have h1 : checkDirectory (env t2).stat = false := by rw [hm]; rfl
        rw [rmdir_check_fail_eq opts t2 (env t2) h1]
      · left
        have h1 : checkDirectory (env t2).stat = true := by rw [hs]; rfl
        have h2 : isDirectoryEmpty (env t2).stat = true := by rw [hs]; rfl
        rw [rmdir_empty_eq opts t2 (env t2) h1 h2, hr2]
    have hmemE : Except.error "Directory check failed" ∈ targetResults opts env := by
      refine List.mem_map.mpr ⟨t, ht, ?_⟩
      have h1 : checkDirectory (env t).stat = false := by rw [hmiss]; rfl
      rw [rmdir_check_fail_eq opts t (env t) h1]
    obtain ⟨m2, hm2⟩ := promiseAll_error_of_mem _ _ hmemE
    have hm2mem := promiseAll_error_mem _ _ hm2
    obtain rfl : m2 = "Directory check failed" := by
      rcases hchar _ hm2mem with h | h
      · simp at h
      · simpa using h
    rw [hmain, hm2]
    exact ⟨rfl, rfl, fun s tot h => by simp at h⟩
  · intro hnm
    have hall : ∀ r ∈ targetResults opts env, r = .ok true := by
      intro r hr
      obtain ⟨t2, ht2, rfl⟩ := List.mem_map.mp hr
      rcases hme t2 ht2 with hm | ⟨hs, hr2⟩
      · exact absurd hm (hnm t2 ht2)
      · have h1 : checkDirectory (env t2).stat = true := by rw [hs]; rfl
        have h2 : isDirectoryEmpty (env t2).stat = true := by rw [hs]; rfl
        rw [rmdir_empty_eq opts t2 (env t2) h1 h2, hr2]
    rw [hmain, promiseAll_all_true _ hall]
    simp [exitCode]

/-- Witness for `c1_amended` at the concrete two-target scenario (one
missing, one empty). -/
theorem c1_witness :
    Ev.deleteEv "b" ∈ mainSyncTrace ["a", "b"] c1env ∧
    mainRun ["a", "b"] c1env = .operationFailed "Directory check failed" := by
  have h := c1_amended ["a", "b"] c1env
    ⟨false, false, false, false, false, ["a", "b"]⟩ rfl rfl rfl (by decide)
    (by
      intro t ht
      rcases List.mem_cons.mp ht with rfl | ht2
      · left; rfl
      · rcases List.mem_cons.mp ht2 with rfl | ht3
        · right; exact ⟨rfl, rfl⟩
        · simp at ht3)
  exact ⟨h.1 "b" (by decide) rfl rfl, (h.2.2.1 ⟨"a", by decide, rfl⟩).1⟩

/-- Environment for the sequencing scenario: every target is an existing
one-file directory, the prompt is answered `y`, deletion succeeds. -/
def c2env : String → TargetEnv := fun _ =>
  ⟨.node (.dir true [("x", .file 1)]), "y", ⟨false, none, none, none⟩, [], none⟩

/-- C2, counterexample: with two non-empty targets under `--force`, the
synchronous promise-creation pass inspects and prompts for BOTH targets
before anything else happens; target `b`'s inspection (and prompt) occurs
strictly before target `a`'s deletion, which only runs in a deferred
continuation — processing is not sequential per target. -/
theorem c2_counterexample :
    mainSyncTrace ["-f", "a", "b"] c2env =
      [.inspectEv "a", .promptEv "a", .inspectEv "b", .promptEv "b"] ∧
    mainFullTrace ["-f", "a", "b"] c2env =
      [.inspectEv "a", .promptEv "a", .inspectEv "b", .promptEv "b",
       .deleteEv "a", .deleteEv "b"] ∧
    (mainFullTrace ["-f", "a", "b"] c2env).indexOf (.inspectEv "b") <
      (mainFullTrace ["-f", "a", "b"] c2env).indexOf (.deleteEv "a") := by
  refine ⟨rfl, rfl, by decide⟩

/-- C2, amended: the per-target promises are created eagerly, in target
order, in one synchronous pass during which every target is inspected
(and empty targets are even deleted); for every target that reaches the
confirmation gate, its deletion is never part of the synchronous pass but
always part of the deferred continuations, which all run only after the
whole synchronous pass — so a later target's inspection precedes an
earlier non-empty target's kill phase and deletion rather than following
them. -/
theorem c2_amended (args : List String) (env : String → TargetEnv)
    (opts : Options) (hparse : parseArgs args = .ok opts)
    (hh : opts.help = false) (hv : opts.version = false) :
    (∀ t ∈ opts.directories, Ev.inspectEv t ∈ mainSyncTrace args env) ∧
    (∀ t ∈ opts.directories, gateReached opts (env t) →
      Ev.deleteEv t ∉ mainSyncTrace args env ∧
      Ev.deleteEv t ∈ mainAsyncTrace args env) ∧
    mainFullTrace args env = mainSyncTrace args env ++ mainAsyncTrace args env := by
  refine ⟨?_, ?_, rfl⟩
  · intro t ht
    have hd : opts.directories ≠ [] := List.ne_nil_of_mem ht
    rw [mainSyncTrace_processing args env opts hparse hh hv hd]
    exact List.mem_flatten.mpr ⟨_, List.mem_map.mpr ⟨t, ht, rfl⟩,
      rmdir_inspect_mem opts t (env t)⟩
  · intro t ht hg
    have hd : opts.directories ≠ [] := List.ne_nil_of_mem ht
    constructor
    · rw [mainSyncTrace_processing args env opts hparse hh hv hd]
      intro hmem
      obtain ⟨part, hpart, hin⟩ := List.mem_flatten.mp hmem
      obtain ⟨t2, ht2, rfl⟩ := List.mem_map.mp hpart
      by_cases hteq : t2 = t
      · subst hteq
        rw [rmdir_gate_eq opts t2 (env t2) hg] at hin
        by_cases hy : opts.yes = true <;> simp [hy] at hin
      · have htag := (rmdir_tags opts t2 (env t2)).1 _ hin
        simp [evTag] at htag
        exact hteq htag.symm
    · rw [mainAsyncTrace_processing args env opts hparse hh hv hd]
      refine List.mem_flatten.mpr ⟨_, List.mem_map.mpr ⟨t, ht, rfl⟩, ?_⟩
      rw [rmdir_gate_eq opts t (env t) hg]
      simp

/-- Witness for `c2_amended` at the concrete two-target `--force` run. -/
theorem c2_witness :
    Ev.inspectEv "b" ∈ mainSyncTrace ["-f", "a", "b"] c2env ∧
    Ev.deleteEv "a" ∉ mainSyncTrace ["-f", "a", "b"] c2env ∧
    Ev.deleteEv "a" ∈ mainAsyncTrace ["-f", "a", "b"] c2env := by
  have h := c2_amended ["-f", "a", "b"] c2env
    ⟨true, false, false, false, false, ["a", "b"]⟩ rfl rfl rfl
  have hg : gateReached ⟨true, false, false, false, false, ["a", "b"]⟩
      (c2env "a") := ⟨rfl, rfl, rfl⟩
  exact ⟨h.1 "b" (by decide), (h.2.1 "a" (by decide) hg).1,
    (h.2.1 "a" (by decide) hg).2⟩

/-- C8, counterexample: a line that fails to parse is not always ignored.
On the Windows platform with `handle.exe` throwing, the `tasklist`
fallback receives the CSV line `"Name","abc"`, whose pid field is not
numeric; instead of ignoring it, the scanner pushes a handle whose pid is
`NaN` (modelled as `none`), so the result is non-empty. -/
theorem c8_counterexample :
    getProcessesUsingDirectory ⟨true, none, some "\"Name\",\"abc\"", none⟩ =
      [⟨none, "Name"⟩] ∧
    getProcessesUsingDirectory ⟨true, none, some "\"Name\",\"abc\"", none⟩ ≠ [] := by
  refine ⟨rfl, by decide⟩

/-- C8, amended: the scan result is a set keyed by pid (pids pairwise
distinct, `NaN` pids collapsing like JavaScript `Set` members); any
underlying command failure (a throwing `lsof`, or both Windows commands
throwing) yields the empty result rather than an error; on POSIX the
result is exactly the deduplication of the per-line `lsof` parse, in
which a line that fails to parse (fewer than two fields, or a `NaN` pid)
contributes nothing; only the Windows `tasklist` fallback deviates by
pushing `NaN`-pid entries for comma-separated lines with a non-numeric
pid field. -/
theorem c8_scan_result (env : ScanEnv) (h t : Option String) (out : String) :
    ((getProcessesUsingDirectory env).map ProcessHandle.pid).Nodup ∧
    getProcessesUsingDirectory ⟨false, h, t, none⟩ = [] ∧
    getProcessesUsingDirectory ⟨true, none, none, some out⟩ = [] ∧
    getProcessesUsingDirectory ⟨false, h, t, some out⟩ =
      dedupByPid (if jsTrim out == "" then []
        else (jsSplitOn out "\n").filterMap parseLsofLine) ∧
    (∀ line, parseLsofLine line = none →
      ∀ pre post, pushLines parseLsofLine (pre ++ line :: post) =
        pushLines parseLsofLine (pre ++ post)) := by
  refine ⟨?_, rfl, rfl, ?_, ?_⟩
  · simp only [getProcessesUsingDirectory]
    exact dedupByPid_nodup _
  · simp [getProcessesUsingDirectory, parseLsofOutput, pushLines_eq_filterMap]
  · intro line hline pre post
    rw [pushLines_eq_filterMap, pushLines_eq_filterMap]
    simp [List.filterMap_append, List.filterMap_cons, hline]

/-- Witness for `c8_scan_result`: a duplicate-pid `lsof` output collapses
to one handle per pid, and an unparseable line contributes nothing. -/
theorem c8_witness :
    getProcessesUsingDirectory ⟨false, none, none,
      some "node 123 r\nnode 123 r\ngarbage\nvim 99 r"⟩ =
      [⟨some 123, "node"⟩, ⟨some 99, "vim"⟩] ∧
    pushLines parseLsofLine (["node 1 x"] ++ "garbage" :: ["vim 2 y"]) =
      pushLines parseLsofLine (["node 1 x"] ++ ["vim 2 y"]) := by
  constructor
  · rw [(c8_scan_result ⟨false, none, none, none⟩ none none
      "node 123 r\nnode 123 r\ngarbage\nvim 99 r").2.2.2.1]
    rfl
  · exact (c8_scan_result ⟨false, none, none, none⟩ none none "").2.2.2.2
      "garbage" rfl ["node 1 x"] ["vim 2 y"]

end RmdirCli
